import Mathlib

/-!
Shallow embedding of the debugger connection-multiplexing layer
(`ConnectionMultiplexer.js` of the nuclide `debugger-hhvm-proxy` package).

The multiplexer owns a map from tracked connections to per-connection
bookkeeping (insertion-ordered, like a JS `Map`), an optional enabled
connection, an optional dummy (warm-up) connection, a connector flag and
a configuration flag `endDebugWhenNoRequests`.  Connections are created
fresh on attach (`new Connection(socket)`), which we model by an
allocation counter `nextId`.  Observable effects that the claims talk
about are recorded in lists: the statuses emitted to `onStatus`
subscribers, the disposed status subscriptions, the disposed
connections, and the connections registered with the `BreakpointStore`.
-/

/-- The DBGP statuses of `DbgpSocket.js` (`STATUS_STARTING`, ...,
`STATUS_END`), shared by per-connection status and the multiplexer's
global `_status`. -/
inductive Status where
  | STARTING
  | STOPPING
  | STOPPED
  | RUNNING
  | BREAK
  | ERROR
  | END
deriving DecidableEq, Repr

/-- The state of a `ConnectionMultiplexer`, plus recorded observable
effects.  `connections` models the insertion-ordered
`Map<Connection, ConnectionInfo>` as a list of (connection id, cached
status) pairs; `emitted` records every `_emitStatus` call in order;
`disposedSubscriptions` / `disposedConnections` record the
`onStatusDisposable.dispose()` / `connection.dispose()` calls of
`_removeConnection`; `breakpointStore` records
`_breakpointStore.addConnection` calls. -/
structure MuxState where
  status : Status
  enabledConnection : Option Nat
  dummyConnection : Option Nat
  connections : List (Nat × Status)
  connector : Bool
  endDebugWhenNoRequests : Bool
  nextId : Nat
  emitted : List Status
  disposedSubscriptions : List Nat
  disposedConnections : List Nat
  breakpointStore : List Nat
deriving DecidableEq, Repr

namespace MuxState

/-- The keys of the tracked-connection map, in insertion order. -/
def keys (s : MuxState) : List Nat :=
  s.connections.map Prod.fst

end MuxState

/-- `_emitStatus(status)`: emit on the `CONNECTION_MUX_STATUS_EVENT`
channel. -/
def emitStatus (st : Status) (s : MuxState) : MuxState :=
  { s with emitted := s.emitted ++ [st] }

/-- `_setStatus(status)`: assign and emit only when the value actually
changes. -/
def setStatus (st : Status) (s : MuxState) : MuxState :=
  if st ≠ s.status then emitStatus st { s with status := st } else s

/-- `_enableConnection(connection)`. -/
def enableConnection (c : Nat) (s : MuxState) : MuxState :=
  setStatus Status.BREAK { s with enabledConnection := some c }

/-- `_disableConnection()`. -/
def disableConnection (s : MuxState) : MuxState :=
  setStatus Status.RUNNING { s with enabledConnection := none }

/-- `_checkForEnd()`: if there are zero tracked connections and the
connector is gone or `endDebugWhenNoRequests` is configured, move to
END. -/
def checkForEnd (s : MuxState) : MuxState :=
  if s.connections.isEmpty ∧ (s.connector = false ∨ s.endDebugWhenNoRequests) then
    setStatus Status.END s
  else s

/-- `_removeConnection(connection)`: dispose the status subscription,
dispose the connection, delete the map entry; if it was the enabled
connection, disable it; then check for end of life. -/
def removeConnection (c : Nat) (s : MuxState) : MuxState :=
  let s1 : MuxState :=
    { s with
      disposedSubscriptions := s.disposedSubscriptions ++ [c]
      disposedConnections := s.disposedConnections ++ [c]
      connections := s.connections.filter (fun p => p.1 ≠ c) }
  let s2 : MuxState :=
    if s1.enabledConnection = some c then disableConnection s1 else s1
  checkForEnd s2

/-- `_updateStatus()`: no-op at END or BREAK; otherwise scan the
tracked connections in insertion order and enable the first one whose
cached status is BREAK. -/
def updateStatus (s : MuxState) : MuxState :=
  if s.status = Status.END then s
  else if s.status = Status.BREAK then s
  else
    match s.connections.find? (fun p => p.2 = Status.BREAK) with
    | some p => enableConnection p.1 s
    | none => s

/-- `this._connections.get(connection).status = status`: update the
cached status of `c` in the map, keeping keys and order. -/
def setCachedStatus (c : Nat) (st : Status) (l : List (Nat × Status)) :
    List (Nat × Status) :=
  l.map (fun p => if p.1 = c then (p.1, st) else p)

/-- `_connectionOnStatus(connection, status)`: cache the status, then
dispatch on it.  STARTING and STOPPING send a continuation command and
return without re-evaluation; RUNNING disables the connection if it was
enabled; BREAK on the enabled connection re-emits BREAK and returns;
terminal statuses remove the connection; all fall-through cases run
`_updateStatus`. -/
def connectionOnStatus (c : Nat) (st : Status) (s : MuxState) : MuxState :=
  let s0 : MuxState := { s with connections := setCachedStatus c st s.connections }
  match st with
  | Status.STARTING => s0
  | Status.STOPPING => s0
  | Status.RUNNING =>
      updateStatus
        (if s0.enabledConnection = some c then disableConnection s0 else s0)
  | Status.BREAK =>
      if s0.enabledConnection = some c then emitStatus Status.BREAK s0
      else updateStatus s0
  | Status.STOPPED => updateStatus (removeConnection c s0)
  | Status.ERROR => updateStatus (removeConnection c s0)
  | Status.END => updateStatus (removeConnection c s0)

/-- `_onAttach` for a validated non-dummy connection: create a fresh
`Connection`, register it with the `BreakpointStore`, subscribe for
status, insert it into the map with cached status STARTING, then query
its initial status — a rejected `getStatus` is treated as
`STATUS_ERROR` — and feed the result to `_connectionOnStatus`.
`initStatus = none` models the rejected query. -/
def onAttachReal (initStatus : Option Status) (s : MuxState) : MuxState :=
  let c := s.nextId
  let s1 : MuxState :=
    { s with
      nextId := s.nextId + 1
      breakpointStore := s.breakpointStore ++ [c]
      connections := s.connections ++ [(c, Status.STARTING)] }
  connectionOnStatus c (initStatus.getD Status.ERROR) s1

/-- `_handleDummyConnection(socket)`: create a fresh connection, send it
a run command, and store it in the dummy slot.  It is never inserted
into the tracked map nor registered with the `BreakpointStore`. -/
def handleDummyConnection (s : MuxState) : MuxState :=
  { s with nextId := s.nextId + 1, dummyConnection := some s.nextId }

/-- `_disposeConnector()`: dispose the connector if present, then check
for end of life. -/
def disposeConnector (s : MuxState) : MuxState :=
  checkForEnd (if s.connector then { s with connector := false } else s)

/-- `dispose()`: remove every tracked connection, then dispose the
connector. -/
def disposeMux (s : MuxState) : MuxState :=
  disposeConnector ((s.connections.map Prod.fst).foldl (fun t c => removeConnection c t) s)

/-- The constructor: `_status = STATUS_STARTING`, empty slots and map,
no connector. -/
def initialState (endDebug : Bool) : MuxState :=
  { status := Status.STARTING
    enabledConnection := none
    dummyConnection := none
    connections := []
    connector := false
    endDebugWhenNoRequests := endDebug
    nextId := 0
    emitted := []
    disposedSubscriptions := []
    disposedConnections := []
    breakpointStore := [] }

/-- `listen()`: install the connector and assign
`this._status = STATUS_RUNNING` directly — not through `_setStatus`, so
nothing is emitted. -/
def listenMux (s : MuxState) : MuxState :=
  { s with connector := true, status := Status.RUNNING }

/-- The external events driving the multiplexer after `listen()`:
a validated non-dummy socket attach (with the result of the initial
status query, `none` = the query rejected), a validated dummy attach,
a status event fired by a tracked connection's subscription, the
connector closing, and `dispose()`. -/
inductive Event where
  | attach (initStatus : Option Status)
  | attachDummy
  | connStatus (c : Nat) (st : Status)
  | connectorClosed
  | disposeMux
deriving DecidableEq, Repr

/-- One event step.  A status event reaches `_connectionOnStatus` only
while the connection's subscription is alive, i.e. while the connection
is still in the tracked map. -/
def step (s : MuxState) (e : Event) : MuxState :=
  match e with
  | Event.attach ist => onAttachReal ist s
  | Event.attachDummy => handleDummyConnection s
  | Event.connStatus c st =>
      if s.connections.any (fun p => p.1 = c) then connectionOnStatus c st s else s
  | Event.connectorClosed => disposeConnector s
  | Event.disposeMux => disposeMux s

/-- Run the multiplexer: construct, `listen()`, then process a sequence
of events. -/
def run (endDebug : Bool) (events : List Event) : MuxState :=
  events.foldl step (listenMux (initialState endDebug))

/-! ### Forwarding operations

The UI-facing facade methods of the multiplexer.  Each one either
forwards to a connection, throws the distinguished `_noConnectionError`,
or resolves to a documented graceful default. -/

/-- The outcome of a facade method: forward to connection `c`, throw
`new Error('No connection')`, resolve `{stack: []}`, or resolve
`false`. -/
inductive FwdResult where
  | delegated (c : Nat)
  | noConnection
  | emptyStack
  | resolvedFalse
deriving DecidableEq, Repr

/-- `evaluateOnCallFrame(frameIndex, expression)`. -/
def evaluateOnCallFrame (s : MuxState) : FwdResult :=
  match s.enabledConnection with
  | some c => FwdResult.delegated c
  | none => FwdResult.noConnection

/-- `getScopesForFrame(frameIndex)`. -/
def getScopesForFrame (s : MuxState) : FwdResult :=
  match s.enabledConnection with
  | some c => FwdResult.delegated c
  | none => FwdResult.noConnection

/-- `sendContinuationCommand(command)`. -/
def sendContinuationCommand (s : MuxState) : FwdResult :=
  match s.enabledConnection with
  | some c => FwdResult.delegated c
  | none => FwdResult.noConnection

/-- `getStackFrames()`: degrades to `{stack: []}` when no connection is
enabled (startup race with the loader breakpoint). -/
def getStackFrames (s : MuxState) : FwdResult :=
  match s.enabledConnection with
  | some c => FwdResult.delegated c
  | none => FwdResult.emptyStack

/-- `sendBreakCommand()`: degrades to a resolved `false` when no
connection is enabled. -/
def sendBreakCommand (s : MuxState) : FwdResult :=
  match s.enabledConnection with
  | some c => FwdResult.delegated c
  | none => FwdResult.resolvedFalse

/-- `getProperties(remoteId)`: forwards to the enabled connection only
when one exists and the global status is BREAK; otherwise falls back to
the dummy connection when present, and throws the "No connection" error
only when there is no dummy connection either. -/
def getProperties (s : MuxState) : FwdResult :=
  match s.enabledConnection, s.status with
  | some c, Status.BREAK => FwdResult.delegated c
  | _, _ =>
      match s.dummyConnection with
      | some d => FwdResult.delegated d
      | none => FwdResult.noConnection

/-- `runtimeEvaluate(expression)`: always targets the dummy connection
regardless of which connection is enabled. -/
def runtimeEvaluate (s : MuxState) : FwdResult :=
  match s.dummyConnection with
  | some d => FwdResult.delegated d
  | none => FwdResult.noConnection

/-! ### Basic equations -/

theorem setStatus_eq (st : Status) (s : MuxState) :
    setStatus st s =
      { s with status := st
               emitted := s.emitted ++ if st = s.status then [] else [st] } := by
  unfold setStatus emitStatus
  by_cases h : st = s.status
  · subst h; simp
  · simp [h]

theorem keys_setCachedStatus (c : Nat) (st : Status) (l : List (Nat × Status)) :
    (setCachedStatus c st l).map Prod.fst = l.map Prod.fst := by
  induction l with
  | nil => rfl
  | cons p t ih =>
      simp only [setCachedStatus, List.map_cons] at *
      rw [ih]
      by_cases h : p.1 = c <;> simp [h]

theorem mem_keys_filter {d c : Nat} {l : List (Nat × Status)}
    (hd : d ∈ l.map Prod.fst) (hne : d ≠ c) :
    d ∈ (l.filter (fun p => p.1 ≠ c)).map Prod.fst := by
  obtain ⟨p, hp, hpd⟩ := List.mem_map.mp hd
  exact List.mem_map.mpr ⟨p, List.mem_filter.mpr ⟨hp, by simp [hpd, hne]⟩, hpd⟩

theorem mem_keys_of_mem_keys_filter {d c : Nat} {l : List (Nat × Status)}
    (hd : d ∈ (l.filter (fun p => p.1 ≠ c)).map Prod.fst) :
    d ∈ l.map Prod.fst := by
  obtain ⟨p, hp, hpd⟩ := List.mem_map.mp hd
  exact List.mem_map.mpr ⟨p, (List.mem_filter.mp hp).1, hpd⟩

/-! ### The reachability invariant

The conjunction of the state properties that hold in every state the
multiplexer can reach after `listen()`, observed at the end of each
event callback. -/

/-- Relation between consecutive emitted statuses: a duplicate emission
can only be a BREAK re-emission. -/
def DupOnlyBreak (x y : Status) : Prop := x = y → x = Status.BREAK

/-- The reachability invariant of the multiplexer state. -/
structure MuxInv (s : MuxState) : Prop where
  enabled_iff_break : s.enabledConnection.isSome ↔ s.status = Status.BREAK
  enabled_mem : ∀ c, s.enabledConnection = some c → c ∈ s.keys
  keys_lt : ∀ c ∈ s.keys, c < s.nextId
  store_lt : ∀ c ∈ s.breakpointStore, c < s.nextId
  dummy_lt : ∀ d, s.dummyConnection = some d → d < s.nextId
  dummy_not_key : ∀ d, s.dummyConnection = some d → d ∉ s.keys
  dummy_not_store : ∀ d, s.dummyConnection = some d → d ∉ s.breakpointStore
  last_emit : ∀ y, s.emitted.getLast? = some y → y = s.status
  chain_emit : List.Chain' DupOnlyBreak s.emitted
  emit_vals : ∀ x ∈ s.emitted,
    x = Status.BREAK ∨ x = Status.RUNNING ∨ x = Status.END

theorem emit_extend {l : List Status} {st old : Status}
    (hlast : ∀ y, l.getLast? = some y → y = old)
    (hchain : List.Chain' DupOnlyBreak l)
    (hok : st = Status.BREAK ∨ st ≠ old) :
    (∀ y, (l ++ [st]).getLast? = some y → y = st) ∧
      List.Chain' DupOnlyBreak (l ++ [st]) := by
  constructor
  · intro y hy
    rw [List.getLast?_concat] at hy
    exact (Option.some.inj hy).symm
  · refine List.chain'_append.mpr ⟨hchain, List.chain'_singleton st, ?_⟩
    intro a ha b hb
    simp only [List.head?_cons, Option.mem_def, Option.some.injEq] at hb
    subst hb
    have ha' := hlast a (Option.mem_def.mp ha)
    subst ha'
    rcases hok with h | h
    · exact fun he => he.trans h
    · exact fun he => absurd he.symm h

theorem muxInv_emitStatus_break (s : MuxState) (hI : MuxInv s)
    (hs : s.status = Status.BREAK) : MuxInv (emitStatus Status.BREAK s) := by
  obtain ⟨i1, i2, i3, i4, i5, i6, i7, i8, i9, i10⟩ := hI
  have he := @emit_extend s.emitted Status.BREAK s.status
    i8 i9 (Or.inl rfl)
  refine ⟨i1.trans ?_, i2, i3, i4, i5, i6, i7, ?_, he.2, ?_⟩
  · simp [emitStatus]
  · intro y hy
    exact ((he.1 y hy).trans hs.symm)
  · intro x hx
    rcases List.mem_append.mp hx with h | h
    · exact i10 x h
    · simp only [List.mem_singleton] at h
      exact Or.inl h

theorem muxInv_enableConnection (s : MuxState) (c : Nat) (hI : MuxInv s)
    (hc : c ∈ s.keys) : MuxInv (enableConnection c s) := by
  obtain ⟨i1, i2, i3, i4, i5, i6, i7, i8, i9, i10⟩ := hI
  rw [enableConnection, setStatus_eq]
  by_cases h : Status.BREAK = s.status
  · rw [if_pos h, List.append_nil]
    refine ⟨by simp, ?_, i3, i4, i5, i6, i7, ?_, i9, i10⟩
    · intro d hd
      cases Option.some.inj hd
      exact hc
    · intro y hy
      exact (i8 y hy).trans h.symm
  · rw [if_neg h]
    have he := @emit_extend s.emitted Status.BREAK s.status
      i8 i9 (Or.inl rfl)
    refine ⟨by simp, ?_, i3, i4, i5, i6, i7, he.1, he.2, ?_⟩
    · intro d hd
      cases Option.some.inj hd
      exact hc
    · intro x hx
      rcases List.mem_append.mp hx with hm | hm
      · exact i10 x hm
      · simp only [List.mem_singleton] at hm
        exact Or.inl hm

theorem muxInv_disableConnection_aux (s : MuxState)
    (i3 : ∀ c ∈ s.keys, c < s.nextId)
    (i4 : ∀ c ∈ s.breakpointStore, c < s.nextId)
    (i5 : ∀ d, s.dummyConnection = some d → d < s.nextId)
    (i6 : ∀ d, s.dummyConnection = some d → d ∉ s.keys)
    (i7 : ∀ d, s.dummyConnection = some d → d ∉ s.breakpointStore)
    (i8 : ∀ y, s.emitted.getLast? = some y → y = s.status)
    (i9 : List.Chain' DupOnlyBreak s.emitted)
    (i10 : ∀ x ∈ s.emitted, x = Status.BREAK ∨ x = Status.RUNNING ∨ x = Status.END) :
    MuxInv (disableConnection s) := by
  rw [disableConnection, setStatus_eq]
  by_cases h : Status.RUNNING = s.status
  · rw [if_pos h, List.append_nil]
    refine ⟨by simp, by simp, i3, i4, i5, i6, i7, ?_, i9, i10⟩
    intro y hy
    exact (i8 y hy).trans h.symm
  · rw [if_neg h]
    have he := @emit_extend s.emitted Status.RUNNING s.status
      i8 i9 (Or.inr (fun hr => h hr))
    refine ⟨by simp, by simp, i3, i4, i5, i6, i7, he.1, he.2, ?_⟩
    intro x hx
    rcases List.mem_append.mp hx with hm | hm
    · exact i10 x hm
    · simp only [List.mem_singleton] at hm
      exact Or.inr (Or.inl hm)

theorem muxInv_disableConnection (s : MuxState) (hI : MuxInv s) :
    MuxInv (disableConnection s) := by
  obtain ⟨i1, i2, i3, i4, i5, i6, i7, i8, i9, i10⟩ := hI
  exact muxInv_disableConnection_aux s i3 i4 i5 i6 i7 i8 i9 i10

theorem muxInv_checkForEnd (s : MuxState) (hI : MuxInv s) :
    MuxInv (checkForEnd s) := by
  obtain ⟨i1, i2, i3, i4, i5, i6, i7, i8, i9, i10⟩ := hI
  rw [checkForEnd]
  split
  case isFalse => exact ⟨i1, i2, i3, i4, i5, i6, i7, i8, i9, i10⟩
  case isTrue hcond =>
    have hempty : s.connections = [] := List.isEmpty_iff.mp hcond.1
    have hen : s.enabledConnection = none := by
      cases hopt : s.enabledConnection with
      | none => rfl
      | some d =>
          have := i2 d hopt
          rw [MuxState.keys, hempty] at this
          simp at this
    rw [setStatus_eq]
    by_cases h : Status.END = s.status
    · rw [if_pos h, List.append_nil]
      refine ⟨by simp [hen], i2, i3, i4, i5, i6, i7, ?_, i9, i10⟩
      intro y hy
      exact (i8 y hy).trans h.symm
    · rw [if_neg h]
      have he := @emit_extend s.emitted Status.END s.status
        i8 i9 (Or.inr (fun hr => h hr))
      refine ⟨by simp [hen], i2, i3, i4, i5, i6, i7, he.1, he.2, ?_⟩
      intro x hx
      rcases List.mem_append.mp hx with hm | hm
      · exact i10 x hm
      · simp only [List.mem_singleton] at hm
        exact Or.inr (Or.inr hm)

theorem muxInv_removeConnection (s : MuxState) (c : Nat) (hI : MuxInv s) :
    MuxInv (removeConnection c s) := by
  obtain ⟨i1, i2, i3, i4, i5, i6, i7, i8, i9, i10⟩ := hI
  simp only [removeConnection]
  apply muxInv_checkForEnd
  split
  case isTrue hEn =>
    apply muxInv_disableConnection_aux
    · intro d hd
      exact i3 d (mem_keys_of_mem_keys_filter hd)
    · exact i4
    · exact i5
    · intro d hdum hmem
      exact i6 d hdum (mem_keys_of_mem_keys_filter hmem)
    · exact i7
    · exact i8
    · exact i9
    · exact i10
  case isFalse hEn =>
    refine ⟨i1, ?_, ?_, i4, i5, ?_, i7, i8, i9, i10⟩
    · intro d hd
      have hdc : d ≠ c := by
        intro h
        exact hEn (h ▸ hd)
      exact mem_keys_filter (i2 d hd) hdc
    · intro d hd
      exact i3 d (mem_keys_of_mem_keys_filter hd)
    · intro d hdum hmem
      exact i6 d hdum (mem_keys_of_mem_keys_filter hmem)

theorem muxInv_updateStatus (s : MuxState) (hI : MuxInv s) :
    MuxInv (updateStatus s) := by
  unfold updateStatus
  split
  case isTrue => exact hI
  case isFalse hEnd =>
    split
    case isTrue => exact hI
    case isFalse hBreak =>
      split
      case h_1 p hp =>
        exact muxInv_enableConnection s p.1 hI
          (List.mem_map.mpr ⟨p, List.mem_of_find?_eq_some hp, rfl⟩)
      case h_2 => exact hI

theorem muxInv_setCached (s : MuxState) (c : Nat) (st : Status) (hI : MuxInv s) :
    MuxInv { s with connections := setCachedStatus c st s.connections } := by
  obtain ⟨i1, i2, i3, i4, i5, i6, i7, i8, i9, i10⟩ := hI
  have hk : MuxState.keys { s with connections := setCachedStatus c st s.connections }
      = s.keys := by
    simp [MuxState.keys, keys_setCachedStatus]
  refine ⟨i1, ?_, ?_, i4, i5, ?_, i7, i8, i9, i10⟩
  · rw [hk]; exact i2
  · rw [hk]; exact i3
  · rw [hk]; exact i6

theorem muxInv_connectionOnStatus (s : MuxState) (c : Nat) (st : Status)
    (hI : MuxInv s) : MuxInv (connectionOnStatus c st s) := by
  have h0 := muxInv_setCached s c st hI
  cases st <;> simp only [connectionOnStatus]
  case STARTING => exact h0
  case STOPPING => exact h0
  case RUNNING =>
    apply muxInv_updateStatus
    split
    · exact muxInv_disableConnection _ h0
    · exact h0
  case BREAK =>
    split
    case isTrue hEn =>
      exact muxInv_emitStatus_break _ h0 (h0.enabled_iff_break.mp (by simp [hEn]))
    case isFalse => exact muxInv_updateStatus _ h0
  case STOPPED => exact muxInv_updateStatus _ (muxInv_removeConnection _ c h0)
  case ERROR => exact muxInv_updateStatus _ (muxInv_removeConnection _ c h0)
  case END => exact muxInv_updateStatus _ (muxInv_removeConnection _ c h0)

theorem muxInv_onAttachReal (s : MuxState) (ist : Option Status) (hI : MuxInv s) :
    MuxInv (onAttachReal ist s) := by
  obtain ⟨i1, i2, i3, i4, i5, i6, i7, i8, i9, i10⟩ := hI
  simp only [onAttachReal]
  apply muxInv_connectionOnStatus
  have hk : MuxState.keys
      { s with nextId := s.nextId + 1
               breakpointStore := s.breakpointStore ++ [s.nextId]
               connections := s.connections ++ [(s.nextId, Status.STARTING)] }
      = s.keys ++ [s.nextId] := by
    simp [MuxState.keys]
  refine ⟨i1, ?_, ?_, ?_, ?_, ?_, ?_, i8, i9, i10⟩
  · rw [hk]
    intro d hd
    exact List.mem_append_left _ (i2 d hd)
  · rw [hk]
    intro d hd
    rcases List.mem_append.mp hd with h | h
    · exact Nat.lt_succ_of_lt (i3 d h)
    · simp only [List.mem_singleton] at h
      exact h ▸ Nat.lt_succ_self _
  · intro d hd
    rcases List.mem_append.mp hd with h | h
    · exact Nat.lt_succ_of_lt (i4 d h)
    · simp only [List.mem_singleton] at h
      exact h ▸ Nat.lt_succ_self _
  · intro d hd
    exact Nat.lt_succ_of_lt (i5 d hd)
  · rw [hk]
    intro d hd hmem
    rcases List.mem_append.mp hmem with h | h
    · exact i6 d hd h
    · simp only [List.mem_singleton] at h
      exact Nat.lt_irrefl _ (h ▸ i5 d hd)
  · intro d hd hmem
    rcases List.mem_append.mp hmem with h | h
    · exact i7 d hd h
    · simp only [List.mem_singleton] at h
      exact Nat.lt_irrefl _ (h ▸ i5 d hd)

theorem muxInv_handleDummy (s : MuxState) (hI : MuxInv s) :
    MuxInv (handleDummyConnection s) := by
  obtain ⟨i1, i2, i3, i4, i5, i6, i7, i8, i9, i10⟩ := hI
  refine ⟨i1, i2, ?_, ?_, ?_, ?_, ?_, i8, i9, i10⟩
  · intro d hd
    exact Nat.lt_succ_of_lt (i3 d hd)
  · intro d hd
    exact Nat.lt_succ_of_lt (i4 d hd)
  · intro d hd
    cases Option.some.inj hd
    exact Nat.lt_succ_self _
  · intro d hd hmem
    cases Option.some.inj hd
    exact Nat.lt_irrefl _ (i3 _ hmem)
  · intro d hd hmem
    cases Option.some.inj hd
    exact Nat.lt_irrefl _ (i4 _ hmem)

theorem muxInv_disposeConnector (s : MuxState) (hI : MuxInv s) :
    MuxInv (disposeConnector s) := by
  obtain ⟨i1, i2, i3, i4, i5, i6, i7, i8, i9, i10⟩ := hI
  unfold disposeConnector
  apply muxInv_checkForEnd
  split
  · exact ⟨i1, i2, i3, i4, i5, i6, i7, i8, i9, i10⟩
  · exact ⟨i1, i2, i3, i4, i5, i6, i7, i8, i9, i10⟩

theorem muxInv_foldl_remove (l : List Nat) :
    ∀ s, MuxInv s → MuxInv (l.foldl (fun t c => removeConnection c t) s) := by
  induction l with
  | nil => exact fun s h => h
  | cons c t ih => exact fun s h => ih _ (muxInv_removeConnection s c h)

theorem muxInv_disposeMux (s : MuxState) (hI : MuxInv s) :
    MuxInv (disposeMux s) := by
  unfold disposeMux
  exact muxInv_disposeConnector _ (muxInv_foldl_remove _ _ hI)

theorem muxInv_step (s : MuxState) (e : Event) (hI : MuxInv s) :
    MuxInv (step s e) := by
  cases e with
  | attach ist => exact muxInv_onAttachReal s ist hI
  | attachDummy => exact muxInv_handleDummy s hI
  | connStatus c st =>
      simp only [step]
      split
      · exact muxInv_connectionOnStatus s c st hI
      · exact hI
  | connectorClosed => exact muxInv_disposeConnector s hI
  | disposeMux => exact muxInv_disposeMux s hI

theorem muxInv_start (e : Bool) : MuxInv (listenMux (initialState e)) := by
  refine ⟨?_, ?_, ?_, ?_, ?_, ?_, ?_, ?_, ?_, ?_⟩ <;>
    simp [listenMux, initialState, MuxState.keys]

theorem muxInv_foldl_step (l : List Event) :
    ∀ s, MuxInv s → MuxInv (l.foldl step s) := by
  induction l with
  | nil => exact fun s h => h
  | cons e t ih => exact fun s h => ih _ (muxInv_step s e h)

/-- Every state reached by a run satisfies the invariant. -/
theorem muxInv_run (e : Bool) (events : List Event) : MuxInv (run e events) :=
  muxInv_foldl_step events _ (muxInv_start e)

/-! ### Unchanged-field lemmas -/

theorem setStatus_enabled (st : Status) (s : MuxState) :
    (setStatus st s).enabledConnection = s.enabledConnection := by
  rw [setStatus_eq]

theorem setStatus_connections (st : Status) (s : MuxState) :
    (setStatus st s).connections = s.connections := by
  rw [setStatus_eq]

theorem setStatus_stat (st : Status) (s : MuxState) :
    (setStatus st s).status = st := by
  rw [setStatus_eq]

theorem checkForEnd_enabled (s : MuxState) :
    (checkForEnd s).enabledConnection = s.enabledConnection := by
  unfold checkForEnd
  split
  · exact setStatus_enabled _ _
  · rfl

theorem checkForEnd_connections (s : MuxState) :
    (checkForEnd s).connections = s.connections := by
  unfold checkForEnd
  split
  · exact setStatus_connections _ _
  · rfl

theorem checkForEnd_dispSubs (s : MuxState) :
    (checkForEnd s).disposedSubscriptions = s.disposedSubscriptions := by
  unfold checkForEnd
  split
  · rw [setStatus_eq]
  · rfl

theorem checkForEnd_dispConns (s : MuxState) :
    (checkForEnd s).disposedConnections = s.disposedConnections := by
  unfold checkForEnd
  split
  · rw [setStatus_eq]
  · rfl

theorem checkForEnd_store (s : MuxState) :
    (checkForEnd s).breakpointStore = s.breakpointStore := by
  unfold checkForEnd
  split
  · rw [setStatus_eq]
  · rfl

theorem updateStatus_connections (s : MuxState) :
    (updateStatus s).connections = s.connections := by
  unfold updateStatus
  split
  · rfl
  split
  · rfl
  split
  · rw [enableConnection, setStatus_eq]
  · rfl

theorem updateStatus_dispSubs (s : MuxState) :
    (updateStatus s).disposedSubscriptions = s.disposedSubscriptions := by
  unfold updateStatus
  split
  · rfl
  split
  · rfl
  split
  · rw [enableConnection, setStatus_eq]
  · rfl

theorem updateStatus_dispConns (s : MuxState) :
    (updateStatus s).disposedConnections = s.disposedConnections := by
  unfold updateStatus
  split
  · rfl
  split
  · rfl
  split
  · rw [enableConnection, setStatus_eq]
  · rfl

theorem updateStatus_store (s : MuxState) :
    (updateStatus s).breakpointStore = s.breakpointStore := by
  unfold updateStatus
  split
  · rfl
  split
  · rfl
  split
  · rw [enableConnection, setStatus_eq]
  · rfl

theorem setCachedStatus_not_mem (c : Nat) (st : Status)
    (l : List (Nat × Status)) (h : ∀ p ∈ l, p.1 ≠ c) :
    setCachedStatus c st l = l := by
  induction l with
  | nil => rfl
  | cons p t ih =>
      simp only [setCachedStatus, List.map_cons]
      rw [if_neg (h p (List.mem_cons_self p t))]
      have := ih (fun q hq => h q (List.mem_cons_of_mem p hq))
      simp only [setCachedStatus] at this
      rw [this]

theorem filter_ne_of_not_mem (c : Nat) (l : List (Nat × Status))
    (h : ∀ p ∈ l, p.1 ≠ c) :
    l.filter (fun p => p.1 ≠ c) = l := by
  induction l with
  | nil => rfl
  | cons p t ih =>
      rw [List.filter_cons]
      rw [if_pos (by simpa using h p (List.mem_cons_self p t))]
      rw [ih (fun q hq => h q (List.mem_cons_of_mem p hq))]

/-! ### Claim theorems -/

/-- C1: for every sequence of attach and status-change events, in every
state observed at the end of an event callback, at most one connection
is enabled; whenever a connection is enabled the global status is BREAK;
and whenever the global status is RUNNING no connection is enabled. -/
theorem C1_enabled_invariant (e : Bool) (events : List Event) :
    (∀ c d, (run e events).enabledConnection = some c →
      (run e events).enabledConnection = some d → c = d) ∧
    ((run e events).enabledConnection.isSome →
      (run e events).status = Status.BREAK) ∧
    ((run e events).status = Status.RUNNING →
      (run e events).enabledConnection = none) := by
  have hI := muxInv_run e events
  refine ⟨?_, ?_, ?_⟩
  · intro c d hc hd
    rw [hc] at hd
    exact Option.some.inj hd
  · exact hI.enabled_iff_break.mp
  · intro hr
    cases hopt : (run e events).enabledConnection with
    | none => rfl
    | some d =>
        have hb := hI.enabled_iff_break.mp (by simp [hopt])
        rw [hr] at hb
        exact absurd hb (by decide)

theorem C1_enabled_invariant_witness :
    (run false [Event.attach (some Status.BREAK)]).status = Status.BREAK ∧
    (run false []).enabledConnection = none :=
  ⟨(C1_enabled_invariant false [Event.attach (some Status.BREAK)]).2.1 (by decide),
   (C1_enabled_invariant false []).2.2 (by decide)⟩

/-- C5: with no enabled connection, `evaluateOnCallFrame`,
`getScopesForFrame` and `sendContinuationCommand` fail with the
distinguished "No connection" error, `getStackFrames` resolves to an
empty stack, `sendBreakCommand` resolves to `false`, and
`getProperties` falls back to the dummy connection when the status is
not BREAK — failing with the "No connection" error only when no dummy
connection exists — so with a live dummy connection and status RUNNING
it resolves using the dummy connection. -/
theorem C5_forwarding_no_enabled (s : MuxState)
    (hen : s.enabledConnection = none) :
    evaluateOnCallFrame s = FwdResult.noConnection ∧
    getScopesForFrame s = FwdResult.noConnection ∧
    sendContinuationCommand s = FwdResult.noConnection ∧
    getStackFrames s = FwdResult.emptyStack ∧
    sendBreakCommand s = FwdResult.resolvedFalse ∧
    (s.status ≠ Status.BREAK →
      (∀ d, s.dummyConnection = some d → getProperties s = FwdResult.delegated d) ∧
      (s.dummyConnection = none → getProperties s = FwdResult.noConnection)) ∧
    (s.status = Status.RUNNING → ∀ d, s.dummyConnection = some d →
      getProperties s = FwdResult.delegated d) := by
  refine ⟨?_, ?_, ?_, ?_, ?_, ?_, ?_⟩
  · simp [evaluateOnCallFrame, hen]
  · simp [getScopesForFrame, hen]
  · simp [sendContinuationCommand, hen]
  · simp [getStackFrames, hen]
  · simp [sendBreakCommand, hen]
  · intro _
    constructor
    · intro d hd
      simp [getProperties, hen, hd]
    · intro hd
      simp [getProperties, hen, hd]
  · intro _ d hd
    simp [getProperties, hen, hd]

theorem C5_forwarding_no_enabled_witness :
    getProperties (run false [Event.attachDummy]) = FwdResult.delegated 0 ∧
    evaluateOnCallFrame (run false [Event.attachDummy]) = FwdResult.noConnection :=
  ⟨(C5_forwarding_no_enabled (run false [Event.attachDummy]) (by decide)).2.2.2.2.2.2
      (by decide) 0 (by decide),
   (C5_forwarding_no_enabled (run false [Event.attachDummy]) (by decide)).1⟩

/-- C6 (counterexample): the claim that two consecutive `onStatus`
callback invocations never deliver the same status value fails: after a
connection attaches in BREAK (first emission BREAK) and then, as the
enabled connection, reports BREAK again after a step, the multiplexer
re-emits BREAK, producing two consecutive BREAK emissions. -/
theorem C6_duplicate_break_counterexample :
    (run false [Event.attach (some Status.BREAK),
      Event.connStatus 0 Status.BREAK]).emitted
      = [Status.BREAK, Status.BREAK] := by decide

/-- C6 (amended): callbacks subscribed via `onStatus` never receive the
same value twice in a row except for BREAK: a duplicate emission can
only be the BREAK re-emitted when the already-enabled connection
reports BREAK again; `_setStatus` itself emits only on actual changes
of `_status`. -/
theorem C6_amended_no_duplicates_except_break (e : Bool) (events : List Event) :
    List.Chain' DupOnlyBreak (run e events).emitted :=
  (muxInv_run e events).chain_emit

/-- C7: when the currently enabled connection reports BREAK again, the
multiplexer emits exactly one further BREAK status event, the enabled
connection is unchanged, the global status stays BREAK, and the only
state change besides the emission is the refreshed cached status. -/
theorem C7_rebreak_enabled (e : Bool) (events : List Event) (c : Nat)
    (hen : (run e events).enabledConnection = some c) :
    (step (run e events) (Event.connStatus c Status.BREAK)).enabledConnection
      = (run e events).enabledConnection ∧
    (step (run e events) (Event.connStatus c Status.BREAK)).status
      = (run e events).status ∧
    (run e events).status = Status.BREAK ∧
    (step (run e events) (Event.connStatus c Status.BREAK)).emitted
      = (run e events).emitted ++ [Status.BREAK] ∧
    (step (run e events) (Event.connStatus c Status.BREAK)).connections
      = setCachedStatus c Status.BREAK (run e events).connections := by
  have hI := muxInv_run e events
  have hmem : c ∈ (run e events).keys := hI.enabled_mem c hen
  have htr : (run e events).connections.any (fun p => p.1 = c) = true := by
    obtain ⟨p, hp, hpc⟩ := List.mem_map.mp hmem
    exact List.any_eq_true.mpr ⟨p, hp, by simp [hpc]⟩
  have hb : (run e events).status = Status.BREAK :=
    hI.enabled_iff_break.mp (by simp [hen])
  simp only [step, if_pos htr, connectionOnStatus]
  rw [if_pos (show ({ run e events with
      connections := setCachedStatus c Status.BREAK
        (run e events).connections } : MuxState).enabledConnection = some c from hen)]
  exact ⟨rfl, rfl, hb, rfl, rfl⟩

theorem C7_rebreak_enabled_witness :
    (step (run false [Event.attach (some Status.BREAK)])
        (Event.connStatus 0 Status.BREAK)).emitted
      = (run false [Event.attach (some Status.BREAK)]).emitted
          ++ [Status.BREAK] :=
  (C7_rebreak_enabled false [Event.attach (some Status.BREAK)] 0
    (by decide)).2.2.2.1

/-- C9: the dummy (warm-up) connection is never inserted into the
tracked-connection map, never registered with the `BreakpointStore`,
and never becomes the enabled connection; only connections present in
the tracked map can be enabled. -/
theorem C9_dummy_isolated (e : Bool) (events : List Event) :
    (∀ d, (run e events).dummyConnection = some d →
      d ∉ (run e events).keys ∧
      d ∉ (run e events).breakpointStore ∧
      (run e events).enabledConnection ≠ some d) ∧
    (∀ c, (run e events).enabledConnection = some c →
      c ∈ (run e events).keys) := by
  have hI := muxInv_run e events
  refine ⟨?_, hI.enabled_mem⟩
  intro d hd
  refine ⟨hI.dummy_not_key d hd, hI.dummy_not_store d hd, ?_⟩
  intro hen
  exact hI.dummy_not_key d hd (hI.enabled_mem d hen)

theorem C9_dummy_isolated_witness :
    (0 ∉ (run false [Event.attachDummy]).keys ∧
      0 ∉ (run false [Event.attachDummy]).breakpointStore ∧
      (run false [Event.attachDummy]).enabledConnection ≠ some 0) ∧
    0 ∈ (run false [Event.attach (some Status.BREAK)]).keys :=
  ⟨(C9_dummy_isolated false [Event.attachDummy]).1 0 (by decide),
   (C9_dummy_isolated false [Event.attach (some Status.BREAK)]).2 0 (by decide)⟩

/-- C10: `listen()` moves the global status from STARTING to RUNNING by
direct assignment rather than through the emitting setter, so no
`onStatus` subscriber observes this transition, and every status a
subscriber can ever observe is a later BREAK, RUNNING or END
emission. -/
theorem C10_listen_not_emitted (e : Bool) (events : List Event) :
    (initialState e).status = Status.STARTING ∧
    (listenMux (initialState e)).status = Status.RUNNING ∧
    (listenMux (initialState e)).emitted = (initialState e).emitted ∧
    (∀ x, x ∈ (run e events).emitted →
      x = Status.BREAK ∨ x = Status.RUNNING ∨ x = Status.END) :=
  ⟨rfl, rfl, rfl, (muxInv_run e events).emit_vals⟩

theorem C10_listen_not_emitted_witness :
    Status.BREAK = Status.BREAK ∨ Status.BREAK = Status.RUNNING ∨
      Status.BREAK = Status.END :=
  (C10_listen_not_emitted false [Event.attach (some Status.BREAK)]).2.2.2
    Status.BREAK (by decide)

theorem updateStatus_found (s : MuxState) (p0 : Nat × Status)
    (hne : s.status ≠ Status.END) (hnb : s.status ≠ Status.BREAK)
    (hp0 : s.connections.find? (fun p => p.2 = Status.BREAK) = some p0) :
    (updateStatus s).enabledConnection = some p0.1 ∧
    (updateStatus s).status = Status.BREAK := by
  unfold updateStatus
  rw [if_neg hne, if_neg hnb, hp0]
  constructor
  · simp [enableConnection, setStatus_eq]
  · simp [enableConnection, setStatus_eq]

theorem connectionOnStatus_break_selects (s : MuxState) (c : Nat)
    (hen : s.enabledConnection ≠ some c)
    (hne : s.status ≠ Status.END) (hnb : s.status ≠ Status.BREAK)
    (p0 : Nat × Status)
    (hp0 : (setCachedStatus c Status.BREAK s.connections).find?
        (fun p => p.2 = Status.BREAK) = some p0) :
    (connectionOnStatus c Status.BREAK s).enabledConnection = some p0.1 ∧
    (connectionOnStatus c Status.BREAK s).status = Status.BREAK := by
  simp only [connectionOnStatus]
  split
  case isTrue h => exact absurd h hen
  case isFalse h => exact updateStatus_found _ p0 hne hnb hp0

/-- C2: a tracked connection reporting BREAK while the global status is
neither BREAK nor END makes the re-evaluation enable the first
connection, in connection-map insertion order, whose cached status is
BREAK (the scan is guaranteed to find one) and set the global status to
BREAK; while the global status is already BREAK, a non-enabled
connection reporting BREAK leaves the enabled connection unchanged, so
it stays disabled. -/
theorem C2_break_selection (e : Bool) (events : List Event) (c : Nat) :
    ((run e events).connections.any (fun p => p.1 = c) = true →
      (run e events).status ≠ Status.BREAK →
      (run e events).status ≠ Status.END →
      ((setCachedStatus c Status.BREAK (run e events).connections).find?
          (fun p => p.2 = Status.BREAK)).isSome = true ∧
      (step (run e events) (Event.connStatus c Status.BREAK)).status
        = Status.BREAK ∧
      (step (run e events) (Event.connStatus c Status.BREAK)).enabledConnection
        = ((setCachedStatus c Status.BREAK (run e events).connections).find?
            (fun p => p.2 = Status.BREAK)).map Prod.fst) ∧
    ((run e events).status = Status.BREAK →
      (run e events).enabledConnection ≠ some c →
      (step (run e events) (Event.connStatus c Status.BREAK)).enabledConnection
        = (run e events).enabledConnection ∧
      (step (run e events) (Event.connStatus c Status.BREAK)).status
        = Status.BREAK) := by
  have hI := muxInv_run e events
  constructor
  · intro htr hnb hne
    have hen : (run e events).enabledConnection = none := by
      cases hopt : (run e events).enabledConnection with
      | none => rfl
      | some d => exact absurd (hI.enabled_iff_break.mp (by simp [hopt])) hnb
    have hfind : ((setCachedStatus c Status.BREAK (run e events).connections).find?
        (fun p => p.2 = Status.BREAK)).isSome = true := by
      rw [List.find?_isSome]
      obtain ⟨p, hp, hpc⟩ := List.any_eq_true.mp htr
      have hpc' : p.1 = c := by simpa using hpc
      exact ⟨(p.1, Status.BREAK),
        List.mem_map.mpr ⟨p, hp, by simp [hpc']⟩, by simp⟩
    obtain ⟨p0, hp0⟩ := Option.isSome_iff_exists.mp hfind
    have hsel := connectionOnStatus_break_selects (run e events) c
      (by simp [hen]) hne hnb p0 hp0
    refine ⟨hfind, ?_, ?_⟩
    · simp only [step, if_pos htr]
      exact hsel.2
    · simp only [step, if_pos htr]
      rw [hsel.1, hp0]
      rfl
  · intro hb hen
    by_cases htr : (run e events).connections.any (fun p => p.1 = c) = true
    · simp only [step, if_pos htr, connectionOnStatus]
      split
      next h => exact absurd h hen
      next h =>
        unfold updateStatus
        rw [if_neg (show ¬((run e events).status = Status.END) from
          fun hx => by rw [hb] at hx; exact absurd hx (by decide))]
        rw [if_pos (show (run e events).status = Status.BREAK from hb)]
        exact ⟨rfl, hb⟩
    · simp only [step, if_neg htr]
      exact ⟨trivial, hb⟩

theorem C2_break_selection_witness :
    ((step (run false [Event.attach (some Status.RUNNING)])
        (Event.connStatus 0 Status.BREAK)).status = Status.BREAK ∧
      (step (run false [Event.attach (some Status.RUNNING)])
        (Event.connStatus 0 Status.BREAK)).enabledConnection = some 0) ∧
    (step (run false [Event.attach (some Status.BREAK),
        Event.attach (some Status.RUNNING)])
      (Event.connStatus 1 Status.BREAK)).enabledConnection = some 0 := by
  constructor
  · have h := (C2_break_selection false [Event.attach (some Status.RUNNING)] 0).1
      (by decide) (by decide) (by decide)
    refine ⟨h.2.1, ?_⟩
    rw [h.2.2]
    decide
  · have h := (C2_break_selection false [Event.attach (some Status.BREAK),
      Event.attach (some Status.RUNNING)] 1).2 (by decide) (by decide)
    rw [h.1]
    decide

/-- C3: removing the connection that is currently enabled (terminal
status or `dispose()`) clears the enabled slot and sets the global
status to RUNNING before the end-of-life check runs: the emitted trace
extends by RUNNING alone, or by RUNNING followed by END — never END
first. -/
theorem C3_remove_enabled (e : Bool) (events : List Event) (c : Nat)
    (hen : (run e events).enabledConnection = some c) :
    (removeConnection c (run e events)).enabledConnection = none ∧
    ((removeConnection c (run e events)).emitted
        = (run e events).emitted ++ [Status.RUNNING] ∨
      (removeConnection c (run e events)).emitted
        = (run e events).emitted ++ [Status.RUNNING, Status.END]) ∧
    ((removeConnection c (run e events)).status = Status.RUNNING ∨
      (removeConnection c (run e events)).status = Status.END) := by
  have hI := muxInv_run e events
  have hb : (run e events).status = Status.BREAK :=
    hI.enabled_iff_break.mp (by simp [hen])
  simp only [removeConnection]
  rw [if_pos (show ({ run e events with
      disposedSubscriptions := (run e events).disposedSubscriptions ++ [c]
      disposedConnections := (run e events).disposedConnections ++ [c]
      connections := (run e events).connections.filter (fun p => p.1 ≠ c) } :
        MuxState).enabledConnection = some c from hen)]
  rw [disableConnection, setStatus_eq]
  rw [if_neg (show ¬(Status.RUNNING = (run e events).status) from
    fun h => by rw [hb] at h; exact absurd h (by decide))]
  unfold checkForEnd
  split
  · rw [setStatus_eq]
    rw [if_neg (by decide : ¬(Status.END = Status.RUNNING))]
    refine ⟨rfl, Or.inr ?_, Or.inr rfl⟩
    simp
  · exact ⟨rfl, Or.inl rfl, Or.inl rfl⟩

theorem C3_remove_enabled_witness :
    (removeConnection 0
        (run false [Event.attach (some Status.BREAK)])).enabledConnection
      = none ∧
    ((removeConnection 0
        (run false [Event.attach (some Status.BREAK)])).emitted
      = (run false [Event.attach (some Status.BREAK)]).emitted
          ++ [Status.RUNNING] ∨
      (removeConnection 0
        (run false [Event.attach (some Status.BREAK)])).emitted
      = (run false [Event.attach (some Status.BREAK)]).emitted
          ++ [Status.RUNNING, Status.END]) :=
  ⟨(C3_remove_enabled false [Event.attach (some Status.BREAK)] 0 (by decide)).1,
   (C3_remove_enabled false [Event.attach (some Status.BREAK)] 0 (by decide)).2.1⟩

theorem removeConnection_connections (c : Nat) (s : MuxState) :
    (removeConnection c s).connections
      = s.connections.filter (fun p => p.1 ≠ c) := by
  simp only [removeConnection]
  rw [checkForEnd_connections]
  split
  · rw [disableConnection, setStatus_eq]
  · rfl

theorem removeConnection_dispSubs (c : Nat) (s : MuxState) :
    (removeConnection c s).disposedSubscriptions
      = s.disposedSubscriptions ++ [c] := by
  simp only [removeConnection]
  rw [checkForEnd_dispSubs]
  split
  · rw [disableConnection, setStatus_eq]
  · rfl

theorem removeConnection_dispConns (c : Nat) (s : MuxState) :
    (removeConnection c s).disposedConnections
      = s.disposedConnections ++ [c] := by
  simp only [removeConnection]
  rw [checkForEnd_dispConns]
  split
  · rw [disableConnection, setStatus_eq]
  · rfl

theorem removeConnection_store (c : Nat) (s : MuxState) :
    (removeConnection c s).breakpointStore = s.breakpointStore := by
  simp only [removeConnection]
  rw [checkForEnd_store]
  split
  · rw [disableConnection, setStatus_eq]
  · rfl

theorem onAttachError_effects (s : MuxState)
    (hfresh : ∀ p ∈ s.connections, p.1 ≠ s.nextId) :
    (onAttachReal none s).connections = s.connections ∧
    (onAttachReal none s).disposedSubscriptions
      = s.disposedSubscriptions ++ [s.nextId] ∧
    (onAttachReal none s).disposedConnections
      = s.disposedConnections ++ [s.nextId] ∧
    (onAttachReal none s).breakpointStore
      = s.breakpointStore ++ [s.nextId] := by
  have hset : setCachedStatus s.nextId Status.ERROR
      (s.connections ++ [(s.nextId, Status.STARTING)])
      = s.connections ++ [(s.nextId, Status.ERROR)] := by
    unfold setCachedStatus
    rw [List.map_append]
    have h1 := setCachedStatus_not_mem s.nextId Status.ERROR s.connections hfresh
    unfold setCachedStatus at h1
    rw [h1]
    simp
  have hfilter : ((s.connections ++ [(s.nextId, Status.ERROR)]).filter
      (fun p => p.1 ≠ s.nextId)) = s.connections := by
    rw [List.filter_append, filter_ne_of_not_mem _ _ hfresh]
    simp
  simp only [onAttachReal, Option.getD_none, connectionOnStatus]
  rw [updateStatus_connections, removeConnection_connections,
    updateStatus_dispSubs, removeConnection_dispSubs,
    updateStatus_dispConns, removeConnection_dispConns,
    updateStatus_store, removeConnection_store]
  refine ⟨?_, rfl, rfl, rfl⟩
  show ((setCachedStatus s.nextId Status.ERROR
      (s.connections ++ [(s.nextId, Status.STARTING)])).filter
        (fun p => p.1 ≠ s.nextId)) = s.connections
  rw [hset, hfilter]

/-- C8: when the initial `getStatus` query for a newly attached
non-dummy connection rejects, the result is treated as ERROR and runs
through the normal per-connection status handling: the connection's
status subscription is disposed, the connection is disposed, and its
map entry is deleted, leaving the tracked map as it was; the attach
handler returns normally (registration with the `BreakpointStore`
remains recorded). -/
theorem C8_failed_status_query (e : Bool) (events : List Event) :
    (step (run e events) (Event.attach none)).connections
      = (run e events).connections ∧
    (step (run e events) (Event.attach none)).disposedSubscriptions
      = (run e events).disposedSubscriptions ++ [(run e events).nextId] ∧
    (step (run e events) (Event.attach none)).disposedConnections
      = (run e events).disposedConnections ++ [(run e events).nextId] ∧
    (step (run e events) (Event.attach none)).breakpointStore
      = (run e events).breakpointStore ++ [(run e events).nextId] := by
  have hI := muxInv_run e events
  exact onAttachError_effects (run e events)
    (fun p hp => Nat.ne_of_lt (hI.keys_lt p.1 (List.mem_map.mpr ⟨p, hp, rfl⟩)))

theorem setStatus_connector (st : Status) (s : MuxState) :
    (setStatus st s).connector = s.connector := by
  rw [setStatus_eq]

theorem setStatus_endDebug (st : Status) (s : MuxState) :
    (setStatus st s).endDebugWhenNoRequests = s.endDebugWhenNoRequests := by
  rw [setStatus_eq]

theorem checkForEnd_end (s : MuxState) (h : s.status = Status.END) :
    (checkForEnd s).status = Status.END ∧
    (checkForEnd s).enabledConnection = s.enabledConnection := by
  unfold checkForEnd
  split
  · exact ⟨setStatus_stat _ _, setStatus_enabled _ _⟩
  · exact ⟨h, rfl⟩

theorem removeConnection_end (s : MuxState) (c : Nat)
    (hen : s.enabledConnection = none) (h : s.status = Status.END) :
    (removeConnection c s).status = Status.END ∧
    (removeConnection c s).enabledConnection = none := by
  simp only [removeConnection]
  rw [if_neg (show ¬(s.enabledConnection = some c) from by simp [hen])]
  have hc := checkForEnd_end
    { s with
      disposedSubscriptions := s.disposedSubscriptions ++ [c]
      disposedConnections := s.disposedConnections ++ [c]
      connections := s.connections.filter (fun p => p.1 ≠ c) } h
  exact ⟨hc.1, hc.2.trans hen⟩

theorem updateStatus_end (s : MuxState) (h : s.status = Status.END) :
    updateStatus s = s := by
  unfold updateStatus
  rw [if_pos h]

theorem connectionOnStatus_end (s : MuxState) (c : Nat) (st : Status)
    (hen : s.enabledConnection = none) (h : s.status = Status.END) :
    (connectionOnStatus c st s).status = Status.END := by
  cases st <;> simp only [connectionOnStatus]
  case STARTING => exact h
  case STOPPING => exact h
  case RUNNING =>
    rw [if_neg (show ¬(s.enabledConnection = some c) from by simp [hen])]
    rw [updateStatus_end
      { s with connections := setCachedStatus c Status.RUNNING s.connections } h]
    exact h
  case BREAK =>
    rw [if_neg (show ¬(s.enabledConnection = some c) from by simp [hen])]
    rw [updateStatus_end
      { s with connections := setCachedStatus c Status.BREAK s.connections } h]
    exact h
  case STOPPED =>
    obtain ⟨h1, _⟩ := removeConnection_end
      { s with connections := setCachedStatus c Status.STOPPED s.connections }
      c hen h
    rw [updateStatus_end _ h1]
    exact h1
  case ERROR =>
    obtain ⟨h1, _⟩ := removeConnection_end
      { s with connections := setCachedStatus c Status.ERROR s.connections }
      c hen h
    rw [updateStatus_end _ h1]
    exact h1
  case END =>
    obtain ⟨h1, _⟩ := removeConnection_end
      { s with connections := setCachedStatus c Status.END s.connections }
      c hen h
    rw [updateStatus_end _ h1]
    exact h1

theorem disposeConnector_end (s : MuxState) (h : s.status = Status.END) :
    (disposeConnector s).status = Status.END := by
  unfold disposeConnector
  split
  · exact (checkForEnd_end { s with connector := false } h).1
  · exact (checkForEnd_end s h).1

theorem foldl_remove_end (l : List Nat) :
    ∀ s : MuxState, s.enabledConnection = none → s.status = Status.END →
      ((l.foldl (fun t c => removeConnection c t) s).status = Status.END ∧
       (l.foldl (fun t c => removeConnection c t) s).enabledConnection = none) := by
  induction l with
  | nil => exact fun s hen h => ⟨h, hen⟩
  | cons c t ih =>
      intro s hen h
      obtain ⟨h1, h2⟩ := removeConnection_end s c hen h
      exact ih _ h2 h1

theorem step_end (s : MuxState) (ev : Event) (hI : MuxInv s)
    (h : s.status = Status.END) : (step s ev).status = Status.END := by
  have hen : s.enabledConnection = none := by
    cases hopt : s.enabledConnection with
    | none => rfl
    | some d =>
        have hb := hI.enabled_iff_break.mp (by simp [hopt])
        rw [h] at hb
        exact absurd hb (by decide)
  cases ev with
  | attach ist =>
      exact connectionOnStatus_end _ s.nextId (ist.getD Status.ERROR) hen h
  | attachDummy => exact h
  | connStatus c st =>
      simp only [step]
      split
      · exact connectionOnStatus_end _ c st hen h
      · exact h
  | connectorClosed => exact disposeConnector_end _ h
  | disposeMux =>
      simp only [step, disposeMux]
      obtain ⟨h1, _⟩ := foldl_remove_end (s.connections.map Prod.fst) s hen h
      exact disposeConnector_end _ h1

theorem foldl_step_end (l : List Event) :
    ∀ s : MuxState, MuxInv s → s.status = Status.END →
      (l.foldl step s).status = Status.END := by
  induction l with
  | nil => exact fun s _ h => h
  | cons e t ih =>
      intro s hI h
      exact ih _ (muxInv_step s e hI) (step_end s e hI h)

/-- The end-of-life condition of `_checkForEnd`: no tracked connections
and the connector gone or `endDebugWhenNoRequests` configured. -/
def EndCond (s : MuxState) : Prop :=
  s.connections = [] ∧
    (s.connector = false ∨ s.endDebugWhenNoRequests = true)

theorem checkForEnd_endCond (s : MuxState)
    (h : (checkForEnd s).status = Status.END) (hx : s.status ≠ Status.END) :
    EndCond (checkForEnd s) := by
  unfold checkForEnd at h ⊢
  split at h
  next hcond =>
    rw [if_pos hcond]
    refine ⟨?_, ?_⟩
    · rw [setStatus_connections]
      exact List.isEmpty_iff.mp hcond.1
    · rw [setStatus_connector, setStatus_endDebug]
      exact hcond.2
  next hcond => exact absurd h hx

theorem updateStatus_eq_self_of_end (s : MuxState)
    (h : (updateStatus s).status = Status.END) :
    updateStatus s = s ∧ s.status = Status.END := by
  unfold updateStatus at h ⊢
  split at h
  next hEnd =>
    rw [if_pos hEnd]
    exact ⟨rfl, hEnd⟩
  next hEnd =>
    split at h
    next hB =>
      rw [hB] at h
      exact absurd h (by decide)
    next hB =>
      split at h
      next p hp =>
        rw [show (enableConnection p.1 s).status = Status.BREAK from
          setStatus_stat _ _] at h
        exact absurd h (by decide)
      next hp => exact absurd h hEnd

theorem removeConnection_endCond (s : MuxState) (c : Nat)
    (hx : s.status ≠ Status.END)
    (h : (removeConnection c s).status = Status.END) :
    EndCond (removeConnection c s) := by
  simp only [removeConnection] at h ⊢
  split at h
  next hEn =>
    rw [if_pos hEn]
    refine checkForEnd_endCond _ h ?_
    rw [disableConnection, setStatus_stat]
    decide
  next hEn =>
    rw [if_neg hEn]
    exact checkForEnd_endCond _ h hx

theorem connectionOnStatus_endCond (s : MuxState) (c : Nat) (st : Status)
    (hx : s.status ≠ Status.END)
    (h : (connectionOnStatus c st s).status = Status.END) :
    EndCond (connectionOnStatus c st s) := by
  cases st <;> simp only [connectionOnStatus] at h ⊢
  case STARTING => exact absurd h hx
  case STOPPING => exact absurd h hx
  case RUNNING =>
    split at h
    next hEn =>
      rw [if_pos hEn]
      obtain ⟨heq, hEnd⟩ := updateStatus_eq_self_of_end _ h
      rw [disableConnection, setStatus_stat] at hEnd
      exact absurd hEnd (by decide)
    next hEn =>
      rw [if_neg hEn]
      obtain ⟨heq, hEnd⟩ := updateStatus_eq_self_of_end _ h
      exact absurd hEnd hx
  case BREAK =>
    split at h
    next hEn => exact absurd h hx
    next hEn =>
      rw [if_neg hEn]
      obtain ⟨heq, hEnd⟩ := updateStatus_eq_self_of_end _ h
      exact absurd hEnd hx
  case STOPPED =>
    obtain ⟨heq, hEnd⟩ := updateStatus_eq_self_of_end _ h
    rw [heq]
    exact removeConnection_endCond _ c hx hEnd
  case ERROR =>
    obtain ⟨heq, hEnd⟩ := updateStatus_eq_self_of_end _ h
    rw [heq]
    exact removeConnection_endCond _ c hx hEnd
  case END =>
    obtain ⟨heq, hEnd⟩ := updateStatus_eq_self_of_end _ h
    rw [heq]
    exact removeConnection_endCond _ c hx hEnd

theorem disposeConnector_endCond (s : MuxState)
    (hx : s.status ≠ Status.END)
    (h : (disposeConnector s).status = Status.END) :
    EndCond (disposeConnector s) := by
  unfold disposeConnector at h ⊢
  split at h
  next hc =>
    rw [if_pos hc]
    exact checkForEnd_endCond _ h hx
  next hc =>
    rw [if_neg hc]
    exact checkForEnd_endCond _ h hx

theorem checkForEnd_preserves_endCond (s : MuxState) (hP : EndCond s) :
    EndCond (checkForEnd s) := by
  unfold checkForEnd
  split
  · exact ⟨by rw [setStatus_connections]; exact hP.1,
      by rw [setStatus_connector, setStatus_endDebug]; exact hP.2⟩
  · exact hP

theorem removeConnection_preserves_end (s : MuxState) (c : Nat)
    (hI : MuxInv s) (hP : s.status = Status.END → EndCond s) :
    (removeConnection c s).status = Status.END →
      EndCond (removeConnection c s) := by
  by_cases hE : s.status = Status.END
  · intro _
    have hen : s.enabledConnection = none := by
      cases hopt : s.enabledConnection with
      | none => rfl
      | some d =>
          have hb := hI.enabled_iff_break.mp (by simp [hopt])
          rw [hE] at hb
          exact absurd hb (by decide)
    have hcond := hP hE
    simp only [removeConnection]
    rw [if_neg (show ¬(s.enabledConnection = some c) from by simp [hen])]
    apply checkForEnd_preserves_endCond
    exact ⟨by rw [hcond.1]; rfl, hcond.2⟩
  · exact removeConnection_endCond s c hE

theorem foldl_remove_endCond (l : List Nat) :
    ∀ s : MuxState, MuxInv s → (s.status = Status.END → EndCond s) →
      MuxInv (l.foldl (fun t c => removeConnection c t) s) ∧
      ((l.foldl (fun t c => removeConnection c t) s).status = Status.END →
        EndCond (l.foldl (fun t c => removeConnection c t) s)) := by
  induction l with
  | nil => exact fun s hI hP => ⟨hI, hP⟩
  | cons c t ih =>
      intro s hI hP
      exact ih _ (muxInv_removeConnection s c hI)
        (removeConnection_preserves_end s c hI hP)

theorem disposeConnector_preserves_end (s : MuxState)
    (hP : s.status = Status.END → EndCond s) :
    (disposeConnector s).status = Status.END →
      EndCond (disposeConnector s) := by
  by_cases hE : s.status = Status.END
  · intro _
    have hcond := hP hE
    unfold disposeConnector
    split
    · exact checkForEnd_preserves_endCond _ ⟨hcond.1, Or.inl rfl⟩
    · exact checkForEnd_preserves_endCond _ hcond
  · exact disposeConnector_endCond s hE

theorem step_endCond (s : MuxState) (ev : Event) (hI : MuxInv s)
    (hx : s.status ≠ Status.END)
    (h : (step s ev).status = Status.END) : EndCond (step s ev) := by
  cases ev with
  | attach ist =>
      simp only [step, onAttachReal] at h ⊢
      exact connectionOnStatus_endCond _ s.nextId (ist.getD Status.ERROR) hx h
  | attachDummy => exact absurd h hx
  | connStatus c st =>
      simp only [step] at h ⊢
      split at h
      next htr =>
        rw [if_pos htr]
        exact connectionOnStatus_endCond _ c st hx h
      next htr =>
        rw [if_neg htr]
        exact absurd h hx
  | connectorClosed =>
      exact disposeConnector_endCond _ hx h
  | disposeMux =>
      simp only [step, disposeMux] at h ⊢
      obtain ⟨hI2, hP2⟩ := foldl_remove_endCond (s.connections.map Prod.fst) s hI
        (fun hE => absurd hE hx)
      exact disposeConnector_preserves_end _ hP2 h

/-- C4: the global status transitions to END only through an
end-of-life check with the tracked map empty and the connector absent
or `endDebugWhenNoRequests` configured (the state after the transition
satisfies exactly that condition); conversely an end-of-life check
under that condition sets END; and END is terminal: once `_status` is
END, no subsequent sequence of events changes it. -/
theorem C4_end_iff_and_terminal (e : Bool) (events events' : List Event)
    (ev : Event) :
    ((run e events).status ≠ Status.END →
      (step (run e events) ev).status = Status.END →
      (step (run e events) ev).connections = [] ∧
        ((step (run e events) ev).connector = false ∨
          (step (run e events) ev).endDebugWhenNoRequests = true)) ∧
    ((run e events).connections = [] →
      ((run e events).connector = false ∨
        (run e events).endDebugWhenNoRequests = true) →
      (checkForEnd (run e events)).status = Status.END) ∧
    ((run e events).status = Status.END →
      (run e (events ++ events')).status = Status.END) := by
  refine ⟨?_, ?_, ?_⟩
  · intro hx h
    exact step_endCond (run e events) ev (muxInv_run e events) hx h
  · intro h1 h2
    unfold checkForEnd
    rw [if_pos ⟨List.isEmpty_iff.mpr h1, h2⟩]
    exact setStatus_stat _ _
  · intro h
    show ((events ++ events').foldl step (listenMux (initialState e))).status
      = Status.END
    rw [List.foldl_append]
    exact foldl_step_end events' _ (muxInv_run e events) h

theorem C4_end_iff_and_terminal_witness :
    ((step (run true []) Event.connectorClosed).connections = [] ∧
      ((step (run true []) Event.connectorClosed).connector = false ∨
        (step (run true []) Event.connectorClosed).endDebugWhenNoRequests
          = true)) ∧
    (checkForEnd (run true [])).status = Status.END ∧
    (run true ([Event.connectorClosed] ++ [Event.attachDummy])).status
      = Status.END :=
  ⟨(C4_end_iff_and_terminal true [] [] Event.connectorClosed).1
      (by decide) (by decide),
   (C4_end_iff_and_terminal true [] [] Event.connectorClosed).2.1
      (by decide) (by decide),
   (C4_end_iff_and_terminal true [Event.connectorClosed] [Event.attachDummy]
      Event.connectorClosed).2.2 (by decide)⟩
